import Mathlib

/-!
Verification of the `openfermion.hamiltonians` aggregation module
(`src/openfermion/hamiltonians/__init__.py`).

The file under scrutiny is a pure namespace-flattening layer: six
`from ._submodule import ...` statements executed sequentially at module
load time.  We embed the relevant fragment of Python's import semantics:

* a Python object is identified by an abstract identity (`PyVal.obj id`),
  so "the identical object" is expressible as equality of identities;
* an internal submodule is a table of definitions (name to object identity)
  together with a flag recording whether executing its body raises;
* `from .m import a, b, c` first initializes the submodule `m` (which, per
  Python's package machinery, also binds `m` as an attribute of the parent
  package), then binds each listed name to the submodule's object, in order,
  failing with an import error on the first missing name;
* the six statements of the `__init__` file run sequentially in textual
  order; the first failure aborts the load with that very error;
* `sys.modules` caching makes repeated imports return the already-built
  module object.

The aggregator's import statements are transcribed verbatim from the source.
-/

namespace OpenFermion

/-- A Python runtime value as observed through the aggregator: an ordinary
object carrying an abstract identity, or a module object named by its
(relative) module name. -/
inductive PyVal where
  | obj (id : Nat)
  | module (name : String)
deriving DecidableEq

/-- An internal submodule of `openfermion.hamiltonians`: the names its body
defines, each with the identity of the object it is bound to, and whether
executing the submodule body raises. -/
structure PyModule where
  defs : List (String × Nat)
  broken : Bool
deriving DecidableEq

/-- The import environment: which internal submodules exist in the package
directory, by name. -/
abbrev Env := List (String × PyModule)

/-- One `from .module import names` statement of the aggregator. -/
structure ImportStmt where
  module : String
  names : List String
deriving DecidableEq

/-- The ways a from-import statement can fail: the submodule does not exist,
executing the submodule body raises, or an imported name is missing from the
submodule. -/
inductive ImportErr where
  | moduleNotFound (m : String)
  | moduleBroken (m : String)
  | missingSymbol (m s : String)
deriving DecidableEq

/-- An observable event of module load: a submodule finishes initializing,
or a name is bound in the package namespace. -/
inductive Event where
  | initModule (m : String)
  | bindName (n : String) (v : PyVal)
deriving DecidableEq

/-- First-match lookup in an association list with string keys (the shape of
every table in this development). -/
def lookupStr {β : Type} (n : String) : List (String × β) → Option β
  | [] => none
  | (k, v) :: t => if n = k then some v else lookupStr n t

/-- The six from-import statements of
`src/openfermion/hamiltonians/__init__.py`, in textual order, with
the imported names in textual order. -/
def hamiltoniansImports : List ImportStmt :=
  [ ⟨"_chemical_series",
      ["make_atomic_ring", "make_atomic_lattice", "make_atom"]⟩,
    ⟨"_hubbard", ["fermi_hubbard"]⟩,
    ⟨"_jellium",
      ["dual_basis_kinetic", "dual_basis_potential",
       "dual_basis_jellium_model", "jellium_model",
       "jordan_wigner_dual_basis_jellium", "plane_wave_kinetic",
       "plane_wave_potential"]⟩,
    ⟨"_mean_field_dwave", ["mean_field_dwave"]⟩,
    ⟨"_molecular_data", ["MolecularData", "periodic_table"]⟩,
    ⟨"_plane_wave_hamiltonian",
      ["dual_basis_external_potential", "fourier_transform",
       "inverse_fourier_transform", "plane_wave_external_potential",
       "plane_wave_hamiltonian", "jordan_wigner_dual_basis_hamiltonian",
       "wigner_seitz_length_scale"]⟩ ]

/-- The 21 public names of section 6 of the specification, in the order they
appear in the source file. -/
def publicNames : List String :=
  ["make_atomic_ring", "make_atomic_lattice", "make_atom",
   "fermi_hubbard",
   "dual_basis_kinetic", "dual_basis_potential", "dual_basis_jellium_model",
   "jellium_model", "jordan_wigner_dual_basis_jellium", "plane_wave_kinetic",
   "plane_wave_potential",
   "mean_field_dwave",
   "MolecularData", "periodic_table",
   "dual_basis_external_potential", "fourier_transform",
   "inverse_fourier_transform", "plane_wave_external_potential",
   "plane_wave_hamiltonian", "jordan_wigner_dual_basis_hamiltonian",
   "wigner_seitz_length_scale"]

/-- The six internal submodule names, in textual order of their imports. -/
def submoduleNames : List String :=
  ["_chemical_series", "_hubbard", "_jellium", "_mean_field_dwave",
   "_molecular_data", "_plane_wave_hamiltonian"]

/-- Resolve a list of imported names in a submodule's definition table,
failing on the first missing name, as `from m import a, b, c` does. -/
def lookupAll (m : String) (defs : List (String × Nat)) :
    List String → Except ImportErr (List (String × PyVal))
  | [] => .ok []
  | n :: rest =>
    match lookupStr n defs with
    | none => .error (.missingSymbol m n)
    | some i =>
      match lookupAll m defs rest with
      | .error e => .error e
      | .ok bs => .ok ((n, PyVal.obj i) :: bs)

/-- Execute one `from .module import names` statement: initialize the
submodule (failing if it is absent or its body raises), bind the submodule
itself as a package attribute, then bind each imported name to the
submodule's object.  Returns the event trace and the produced bindings. -/
def importFrom (env : Env) (s : ImportStmt) :
    Except ImportErr (List Event × List (String × PyVal)) :=
  match lookupStr s.module env with
  | none => .error (.moduleNotFound s.module)
  | some sub =>
    if sub.broken then .error (.moduleBroken s.module)
    else
      match lookupAll s.module sub.defs s.names with
      | .error e => .error e
      | .ok binds =>
        .ok (Event.initModule s.module ::
               Event.bindName s.module (PyVal.module s.module) ::
               binds.map (fun p => Event.bindName p.1 p.2),
             (s.module, PyVal.module s.module) :: binds)

/-- Execute a list of from-import statements sequentially, in order,
propagating the first failure unchanged. -/
def runImports (env : Env) : List ImportStmt →
    Except ImportErr (List Event × List (String × PyVal))
  | [] => .ok ([], [])
  | s :: rest =>
    match importFrom env s with
    | .error e => .error e
    | .ok (tr, bs) =>
      match runImports env rest with
      | .error e => .error e
      | .ok (tr2, ns2) => .ok (tr ++ tr2, bs ++ ns2)

/-- Load the `openfermion.hamiltonians` module body: the resulting package
namespace (bindings in the order they are made), or the propagated error. -/
def loadHamiltonians (env : Env) :
    Except ImportErr (List (String × PyVal)) :=
  match runImports env hamiltoniansImports with
  | .error e => .error e
  | .ok r => .ok r.2

/-- Load the module body and return the event trace of the load. -/
def loadTrace (env : Env) : Except ImportErr (List Event) :=
  match runImports env hamiltoniansImports with
  | .error e => .error e
  | .ok r => .ok r.1

/-- Attribute resolution on the loaded package namespace.  Bindings are made
by sequential dictionary assignment, so the last binding of a name wins. -/
def nsLookup (ns : List (String × PyVal)) (n : String) : Option PyVal :=
  lookupStr n ns.reverse

/-- All names a statement binds: the submodule attribute, then the imported
names. -/
def stmtNames (s : ImportStmt) : List String := s.module :: s.names

/-- All names a statement list binds, in binding order. -/
def boundNames : List ImportStmt → List String
  | [] => []
  | s :: rest => stmtNames s ++ boundNames rest

/-- The shape of an event, forgetting object identities: `true` marks a
submodule initialization, `false` a name binding. -/
def eventTag : Event → Bool × String
  | .initModule m => (true, m)
  | .bindName n _ => (false, n)

/-- The tag trace a single statement contributes. -/
def stmtTags (s : ImportStmt) : List (Bool × String) :=
  (true, s.module) :: (false, s.module) ::
    s.names.map (fun n => (false, n))

/-- The tag trace a statement list contributes. -/
def tagTrace : List ImportStmt → List (Bool × String)
  | [] => []
  | s :: rest => stmtTags s ++ tagTrace rest

/-- Index of the first occurrence of a tag in a tag trace. -/
def tagIdx (p : Bool × String) : List (Bool × String) → Option Nat
  | [] => none
  | t :: ts => if t = p then some 0 else (tagIdx p ts).map (· + 1)

/-- Whether tag `p` occurs strictly before tag `q` in a tag trace. -/
def tagBefore (p q : Bool × String) (ts : List (Bool × String)) : Bool :=
  match tagIdx p ts, tagIdx q ts with
  | some i, some j => decide (i < j)
  | _, _ => false

/-- Whether an `Except` result is a success. -/
def isOkB {ε α : Type} : Except ε α → Bool
  | .ok _ => true
  | .error _ => false

/-- Whether a name is private by Python convention (leading underscore);
with no `__all__` declared, `from package import *` skips exactly these. -/
def isPrivateName (n : String) : Bool :=
  match n.data with
  | [] => false
  | c :: _ => c == '_'

/-- The names a wildcard import of the package exposes, given the loaded
namespace: the bound names that are not underscore-private (the module
declares no `__all__`). -/
def starImportNames (ns : List (String × PyVal)) : List String :=
  (ns.map Prod.fst).filter (fun n => !(isPrivateName n))

/-- The interpreter state relevant to repeated imports: the `sys.modules`
cache entry for `openfermion.hamiltonians`, holding the namespace built by
the first successful load. -/
structure SysState where
  cache : Option (List (String × PyVal))
deriving DecidableEq

/-- Import the package once: a cached module is returned as is; otherwise
the module body runs, and on success the result is cached.  A failed load
leaves no cache entry behind. -/
def importPackage (env : Env) (st : SysState) :
    SysState × Except ImportErr (List (String × PyVal)) :=
  match st.cache with
  | some ns => (st, .ok ns)
  | none =>
    match loadHamiltonians env with
    | .ok ns => (⟨some ns⟩, .ok ns)
    | .error e => (st, .error e)

/-- Iterate the state effect of importing the package `k` times. -/
def importSteps (env : Env) (st : SysState) : Nat → SysState
  | 0 => st
  | k + 1 => importSteps env (importPackage env st).1 k

/-- The whole program state: the import-relevant state together with all
remaining program state, abstracted as a value of an arbitrary type. -/
structure World (α : Type) where
  sys : SysState
  rest : α

/-- Importing the package as an action on the whole program state. -/
def importPackageW {α : Type} (env : Env) (w : World α) :
    World α × Except ImportErr (List (String × PyVal)) :=
  (⟨(importPackage env w.sys).1, w.rest⟩, (importPackage env w.sys).2)

/-- A concrete healthy environment: each of the six submodules defines
exactly the names the aggregator imports, with pairwise distinct object
identities 1 through 21. -/
def envOK : Env :=
  [ ("_chemical_series",
      ⟨[("make_atomic_ring", 1), ("make_atomic_lattice", 2),
        ("make_atom", 3)], false⟩),
    ("_hubbard", ⟨[("fermi_hubbard", 4)], false⟩),
    ("_jellium",
      ⟨[("dual_basis_kinetic", 5), ("dual_basis_potential", 6),
        ("dual_basis_jellium_model", 7), ("jellium_model", 8),
        ("jordan_wigner_dual_basis_jellium", 9), ("plane_wave_kinetic", 10),
        ("plane_wave_potential", 11)], false⟩),
    ("_mean_field_dwave", ⟨[("mean_field_dwave", 12)], false⟩),
    ("_molecular_data",
      ⟨[("MolecularData", 13), ("periodic_table", 14)], false⟩),
    ("_plane_wave_hamiltonian",
      ⟨[("dual_basis_external_potential", 15), ("fourier_transform", 16),
        ("inverse_fourier_transform", 17),
        ("plane_wave_external_potential", 18),
        ("plane_wave_hamiltonian", 19),
        ("jordan_wigner_dual_basis_hamiltonian", 20),
        ("wigner_seitz_length_scale", 21)], false⟩) ]

/-- The namespace `envOK` produces: for each statement, the submodule
attribute binding followed by the imported-name bindings, in textual
order. -/
def nsOK : List (String × PyVal) :=
  [ ("_chemical_series", PyVal.module "_chemical_series"),
    ("make_atomic_ring", PyVal.obj 1),
    ("make_atomic_lattice", PyVal.obj 2),
    ("make_atom", PyVal.obj 3),
    ("_hubbard", PyVal.module "_hubbard"),
    ("fermi_hubbard", PyVal.obj 4),
    ("_jellium", PyVal.module "_jellium"),
    ("dual_basis_kinetic", PyVal.obj 5),
    ("dual_basis_potential", PyVal.obj 6),
    ("dual_basis_jellium_model", PyVal.obj 7),
    ("jellium_model", PyVal.obj 8),
    ("jordan_wigner_dual_basis_jellium", PyVal.obj 9),
    ("plane_wave_kinetic", PyVal.obj 10),
    ("plane_wave_potential", PyVal.obj 11),
    ("_mean_field_dwave", PyVal.module "_mean_field_dwave"),
    ("mean_field_dwave", PyVal.obj 12),
    ("_molecular_data", PyVal.module "_molecular_data"),
    ("MolecularData", PyVal.obj 13),
    ("periodic_table", PyVal.obj 14),
    ("_plane_wave_hamiltonian", PyVal.module "_plane_wave_hamiltonian"),
    ("dual_basis_external_potential", PyVal.obj 15),
    ("fourier_transform", PyVal.obj 16),
    ("inverse_fourier_transform", PyVal.obj 17),
    ("plane_wave_external_potential", PyVal.obj 18),
    ("plane_wave_hamiltonian", PyVal.obj 19),
    ("jordan_wigner_dual_basis_hamiltonian", PyVal.obj 20),
    ("wigner_seitz_length_scale", PyVal.obj 21) ]

/-- A `_hubbard` submodule that defines one more name, `extra_helper`, than
the aggregator imports from it. -/
def hubbardExtra : PyModule :=
  ⟨[("fermi_hubbard", 4), ("extra_helper", 99)], false⟩

/-- The healthy environment with `_hubbard` replaced by `hubbardExtra`:
every submodule export the aggregator names is unchanged, but `_hubbard`
additionally exports `extra_helper`. -/
def envExtra : Env :=
  [ ("_chemical_series",
      ⟨[("make_atomic_ring", 1), ("make_atomic_lattice", 2),
        ("make_atom", 3)], false⟩),
    ("_hubbard", hubbardExtra),
    ("_jellium",
      ⟨[("dual_basis_kinetic", 5), ("dual_basis_potential", 6),
        ("dual_basis_jellium_model", 7), ("jellium_model", 8),
        ("jordan_wigner_dual_basis_jellium", 9), ("plane_wave_kinetic", 10),
        ("plane_wave_potential", 11)], false⟩),
    ("_mean_field_dwave", ⟨[("mean_field_dwave", 12)], false⟩),
    ("_molecular_data",
      ⟨[("MolecularData", 13), ("periodic_table", 14)], false⟩),
    ("_plane_wave_hamiltonian",
      ⟨[("dual_basis_external_potential", 15), ("fourier_transform", 16),
        ("inverse_fourier_transform", 17),
        ("plane_wave_external_potential", 18),
        ("plane_wave_hamiltonian", 19),
        ("jordan_wigner_dual_basis_hamiltonian", 20),
        ("wigner_seitz_length_scale", 21)], false⟩) ]

/-- The healthy environment with the `_jellium` submodule body raising. -/
def envBroken : Env :=
  [ ("_chemical_series",
      ⟨[("make_atomic_ring", 1), ("make_atomic_lattice", 2),
        ("make_atom", 3)], false⟩),
    ("_hubbard", ⟨[("fermi_hubbard", 4)], false⟩),
    ("_jellium", ⟨[], true⟩),
    ("_mean_field_dwave", ⟨[("mean_field_dwave", 12)], false⟩),
    ("_molecular_data",
      ⟨[("MolecularData", 13), ("periodic_table", 14)], false⟩),
    ("_plane_wave_hamiltonian",
      ⟨[("dual_basis_external_potential", 15), ("fourier_transform", 16),
        ("inverse_fourier_transform", 17),
        ("plane_wave_external_potential", 18),
        ("plane_wave_hamiltonian", 19),
        ("jordan_wigner_dual_basis_hamiltonian", 20),
        ("wigner_seitz_length_scale", 21)], false⟩) ]

/-- The healthy environment extended with an unrelated extra module that the
aggregator never touches. -/
def envPlus : Env :=
  envOK ++ [("_unrelated_module", ⟨[("mystery", 77)], false⟩)]

/-- Lookup distributes over append: the left table is consulted first. -/
theorem lookupStr_append {β : Type} (n : String) (a b : List (String × β)) :
    lookupStr n (a ++ b) =
      (match lookupStr n a with
       | some v => some v
       | none => lookupStr n b) := by
  induction a with
  | nil => simp [lookupStr]
  | cons p t ih =>
    obtain ⟨k, v⟩ := p
    by_cases h : n = k <;> simp [lookupStr, h, ih]

/-- Lookup of a key absent from the table fails. -/
theorem lookupStr_eq_none {β : Type} {n : String} {l : List (String × β)}
    (h : n ∉ l.map Prod.fst) : lookupStr n l = none := by
  induction l with
  | nil => rfl
  | cons p t ih =>
    obtain ⟨k, v⟩ := p
    simp only [List.map_cons, List.mem_cons] at h
    push_neg at h
    simp [lookupStr, h.1, ih h.2]

/-- With pairwise distinct keys, first-match and last-match lookup agree. -/
theorem lookupStr_reverse {β : Type} {l : List (String × β)}
    (h : (l.map Prod.fst).Nodup) (n : String) :
    lookupStr n l.reverse = lookupStr n l := by
  induction l with
  | nil => rfl
  | cons p t ih =>
    obtain ⟨k, v⟩ := p
    simp only [List.map_cons, List.nodup_cons] at h
    rw [List.reverse_cons, lookupStr_append]
    by_cases hn : n = k
    · subst hn
      have hnone : lookupStr n t.reverse = none := by
        apply lookupStr_eq_none
        rw [List.map_reverse, List.mem_reverse]
        exact h.1
      rw [hnone]
      simp [lookupStr]
    · rw [ih h.2]
      cases hc : lookupStr n t <;> simp [lookupStr, hn, hc]

/-- Successful name resolution returns bindings keyed exactly by the
requested names, in order. -/
theorem lookupAll_keys {m : String} {defs : List (String × Nat)} :
    ∀ {names : List String} {bs : List (String × PyVal)},
      lookupAll m defs names = .ok bs → bs.map Prod.fst = names := by
  intro names
  induction names with
  | nil =>
    intro bs h
    simp only [lookupAll, Except.ok.injEq] at h
    subst h
    rfl
  | cons n rest ih =>
    intro bs h
    simp only [lookupAll] at h
    split at h
    · simp at h
    · rename_i i hd
      split at h
      · simp at h
      · rename_i bs2 hr
        injection h with h
        subst h
        simp [ih hr]

/-- Successful name resolution binds every requested name to exactly the
object the submodule's definition table assigns to it. -/
theorem lookupAll_lookup {m : String} {defs : List (String × Nat)} :
    ∀ {names : List String} {bs : List (String × PyVal)},
      lookupAll m defs names = .ok bs → ∀ n ∈ names,
        ∃ i, lookupStr n defs = some i ∧
          lookupStr n bs = some (PyVal.obj i) := by
  intro names
  induction names with
  | nil =>
    intro bs _ n hn
    exact absurd hn (by simp)
  | cons n0 rest ih =>
    intro bs h n hn
    simp only [lookupAll] at h
    split at h
    · simp at h
    · rename_i i hd
      split at h
      · simp at h
      · rename_i bs2 hr
        injection h with h
        subst h
        rcases List.mem_cons.mp hn with rfl | hn2
        · exact ⟨i, hd, by simp [lookupStr]⟩
        · by_cases hne : n = n0
          · subst hne
            exact ⟨i, hd, by simp [lookupStr]⟩
          · obtain ⟨j, hj1, hj2⟩ := ih hr n hn2
            exact ⟨j, hj1, by simp [lookupStr, hne, hj2]⟩

/-- Anatomy of a successful from-import: the submodule exists, its body does
not raise, every requested name resolves, and the trace and bindings have
the stated shape. -/
theorem importFrom_ok {env : Env} {s : ImportStmt} {tr : List Event}
    {bs : List (String × PyVal)}
    (h : importFrom env s = .ok (tr, bs)) :
    ∃ sub binds, lookupStr s.module env = some sub ∧ sub.broken = false ∧
      lookupAll s.module sub.defs s.names = .ok binds ∧
      bs = (s.module, PyVal.module s.module) :: binds ∧
      tr = Event.initModule s.module ::
             Event.bindName s.module (PyVal.module s.module) ::
             binds.map (fun p => Event.bindName p.1 p.2) := by
  unfold importFrom at h
  split at h
  · simp at h
  · rename_i sub hsub
    split at h
    · simp at h
    · rename_i hbroken
      split at h
      · simp at h
      · rename_i binds hbinds
        injection h with h
        rw [Prod.ext_iff] at h
        exact ⟨sub, binds, hsub, by simpa using hbroken, hbinds,
          h.2.symm, h.1.symm⟩

/-- Anatomy of a successful sequential run: the head statement succeeds, the
tail runs successfully, and trace and bindings concatenate. -/
theorem runImports_cons {env : Env} {s : ImportStmt}
    {rest : List ImportStmt} {tr : List Event} {ns : List (String × PyVal)}
    (h : runImports env (s :: rest) = .ok (tr, ns)) :
    ∃ tr1 bs tr2 ns2, importFrom env s = .ok (tr1, bs) ∧
      runImports env rest = .ok (tr2, ns2) ∧
      tr = tr1 ++ tr2 ∧ ns = bs ++ ns2 := by
  simp only [runImports] at h
  split at h
  · simp at h
  · rename_i tr1 bs h1
    split at h
    · simp at h
    · rename_i tr2 ns2 h2
      injection h with h
      rw [Prod.ext_iff] at h
      exact ⟨tr1, bs, tr2, ns2, h1, h2, h.1.symm, h.2.symm⟩

/-- A successful run binds exactly the names the statement list mentions, in
binding order. -/
theorem runImports_keys {env : Env} :
    ∀ {stmts : List ImportStmt} {tr : List Event}
      {ns : List (String × PyVal)},
      runImports env stmts = .ok (tr, ns) →
        ns.map Prod.fst = boundNames stmts := by
  intro stmts
  induction stmts with
  | nil =>
    intro tr ns h
    simp only [runImports, Except.ok.injEq, Prod.mk.injEq] at h
    rw [← h.2]
    rfl
  | cons s rest ih =>
    intro tr ns h
    obtain ⟨tr1, bs, tr2, ns2, h1, h2, rfl, rfl⟩ := runImports_cons h
    obtain ⟨sub, binds, _, _, hall, rfl, rfl⟩ := importFrom_ok h1
    simp [boundNames, stmtNames, lookupAll_keys hall, ih h2]

/-- A successful run produces exactly the tag trace of the statement list:
for each statement in textual order, the submodule initialization, the
submodule attribute binding, then the imported-name bindings in order. -/
theorem runImports_tags {env : Env} :
    ∀ {stmts : List ImportStmt} {tr : List Event}
      {ns : List (String × PyVal)},
      runImports env stmts = .ok (tr, ns) →
        tr.map eventTag = tagTrace stmts := by
  intro stmts
  induction stmts with
  | nil =>
    intro tr ns h
    simp only [runImports, Except.ok.injEq, Prod.mk.injEq] at h
    rw [← h.1]
    rfl
  | cons s rest ih =>
    intro tr ns h
    obtain ⟨tr1, bs, tr2, ns2, h1, h2, rfl, rfl⟩ := runImports_cons h
    obtain ⟨sub, binds, _, _, hall, rfl, rfl⟩ := importFrom_ok h1
    have hk := lookupAll_keys hall
    simp only [tagTrace, stmtTags, List.map_append, List.map_cons,
      List.map_map, ih h2, eventTag, ← hk]
    rfl

/-- Every name a member statement imports is among the bound names. -/
theorem mem_boundNames {n : String} :
    ∀ {stmts : List ImportStmt} {s : ImportStmt},
      s ∈ stmts → n ∈ stmtNames s → n ∈ boundNames stmts := by
  intro stmts
  induction stmts with
  | nil =>
    intro s hs
    exact absurd hs (by simp)
  | cons t rest ih =>
    intro s hs hn
    rcases List.mem_cons.mp hs with rfl | hs2
    · exact List.mem_append_left _ hn
    · exact List.mem_append_right _ (ih hs2 hn)

/-- If the bound names are pairwise distinct, every imported name resolves
in the final namespace to exactly the object the originating submodule
defines for it. -/
theorem runImports_lookup_symbol {env : Env} :
    ∀ {stmts : List ImportStmt} {tr : List Event}
      {ns : List (String × PyVal)},
      (boundNames stmts).Nodup →
      runImports env stmts = .ok (tr, ns) →
      ∀ s ∈ stmts, ∀ n ∈ s.names,
        ∃ sub i, lookupStr s.module env = some sub ∧
          lookupStr n sub.defs = some i ∧
          lookupStr n ns = some (PyVal.obj i) := by
  intro stmts
  induction stmts with
  | nil =>
    intro tr ns _ _ s hs
    exact absurd hs (by simp)
  | cons s0 rest ih =>
    intro tr ns hnd h s hs n hn
    obtain ⟨tr1, bs, tr2, ns2, h1, h2, rfl, rfl⟩ := runImports_cons h
    obtain ⟨sub, binds, hsub, hbr, hall, rfl, rfl⟩ := importFrom_ok h1
    have hnd2 : (stmtNames s0 ++ boundNames rest).Nodup := hnd
    rw [List.nodup_append] at hnd2
    rcases List.mem_cons.mp hs with rfl | hs2
    · obtain ⟨i, hdef, hbinds⟩ := lookupAll_lookup hall n hn
      refine ⟨sub, i, hsub, hdef, ?_⟩
      have hnm : n ≠ s.module := by
        intro hcontra
        have := hnd2.1
        rw [stmtNames, List.nodup_cons] at this
        exact this.1 (hcontra ▸ hn)
      rw [List.cons_append]
      simp only [lookupStr, if_neg hnm]
      rw [lookupStr_append]
      simp [hbinds]
    · have hmem : n ∈ boundNames rest :=
        mem_boundNames hs2 (List.mem_cons_of_mem _ hn)
      have hnotleft : n ∉
          (((s0.module, PyVal.module s0.module) :: binds)).map Prod.fst := by
        have : (((s0.module, PyVal.module s0.module) :: binds)).map
            Prod.fst = stmtNames s0 := by
          simp [stmtNames, lookupAll_keys hall]
        rw [this]
        intro hin
        exact hnd2.2.2 hin hmem
      rw [lookupStr_append, lookupStr_eq_none hnotleft]
      exact ih hnd2.2.1 h2 s hs2 n hn

/-- If the bound names are pairwise distinct, every member statement's
submodule name resolves in the final namespace to that submodule object. -/
theorem runImports_lookup_module {env : Env} :
    ∀ {stmts : List ImportStmt} {tr : List Event}
      {ns : List (String × PyVal)},
      (boundNames stmts).Nodup →
      runImports env stmts = .ok (tr, ns) →
      ∀ s ∈ stmts,
        lookupStr s.module ns = some (PyVal.module s.module) := by
  intro stmts
  induction stmts with
  | nil =>
    intro tr ns _ _ s hs
    exact absurd hs (by simp)
  | cons s0 rest ih =>
    intro tr ns hnd h s hs
    obtain ⟨tr1, bs, tr2, ns2, h1, h2, rfl, rfl⟩ := runImports_cons h
    obtain ⟨sub, binds, hsub, hbr, hall, rfl, rfl⟩ := importFrom_ok h1
    have hnd2 : (stmtNames s0 ++ boundNames rest).Nodup := hnd
    rw [List.nodup_append] at hnd2
    rcases List.mem_cons.mp hs with rfl | hs2
    · rw [List.cons_append]
      simp [lookupStr]
    · have hmem : s.module ∈ boundNames rest :=
        mem_boundNames hs2 (by simp [stmtNames])
      have hnotleft : s.module ∉
          (((s0.module, PyVal.module s0.module) :: binds)).map Prod.fst := by
        have : (((s0.module, PyVal.module s0.module) :: binds)).map
            Prod.fst = stmtNames s0 := by
          simp [stmtNames, lookupAll_keys hall]
        rw [this]
        intro hin
        exact hnd2.2.2 hin hmem
      rw [lookupStr_append, lookupStr_eq_none hnotleft]
      exact ih hnd2.2.1 h2 s hs2

/-- A run depends only on the lookup of the modules the statements name. -/
theorem runImports_congr {env1 env2 : Env} :
    ∀ {stmts : List ImportStmt},
      (∀ s ∈ stmts, lookupStr s.module env1 = lookupStr s.module env2) →
      runImports env1 stmts = runImports env2 stmts := by
  intro stmts
  induction stmts with
  | nil => intro _; rfl
  | cons s rest ih =>
    intro h
    have hs : importFrom env1 s = importFrom env2 s := by
      unfold importFrom
      rw [h s (by simp)]
    have ht := ih (fun t ht => h t (by simp [ht]))
    simp only [runImports, hs, ht]

/-- If all statements before some statement succeed and that statement
fails, the sequential run fails with exactly that error. -/
theorem runImports_error {env : Env} {s : ImportStmt}
    {stmts2 : List ImportStmt} {e : ImportErr} :
    ∀ {stmts1 : List ImportStmt},
      (∀ t ∈ stmts1, isOkB (importFrom env t) = true) →
      importFrom env s = .error e →
      runImports env (stmts1 ++ s :: stmts2) = .error e := by
  intro stmts1
  induction stmts1 with
  | nil =>
    intro _ herr
    simp only [List.nil_append, runImports, herr]
  | cons t ts ih =>
    intro hok herr
    have hhead := hok t (by simp)
    cases hr : importFrom env t with
    | error e2 => rw [hr] at hhead; simp [isOkB] at hhead
    | ok r =>
      obtain ⟨tr1, bs1⟩ := r
      rw [List.cons_append]
      simp only [runImports, hr, ih (fun u hu => hok u (by simp [hu])) herr]

/-- A successful load comes from a successful run. -/
theorem loadHamiltonians_ok {env : Env} {ns : List (String × PyVal)}
    (h : loadHamiltonians env = .ok ns) :
    ∃ tr, runImports env hamiltoniansImports = .ok (tr, ns) := by
  unfold loadHamiltonians at h
  split at h
  · simp at h
  · rename_i r hr
    injection h with h
    exact ⟨r.1, by rw [hr, ← h]⟩

/-- A successful load trace comes from a successful run. -/
theorem loadTrace_ok {env : Env} {tr : List Event}
    (h : loadTrace env = .ok tr) :
    ∃ ns, runImports env hamiltoniansImports = .ok (tr, ns) := by
  unfold loadTrace at h
  split at h
  · simp at h
  · rename_i r hr
    injection h with h
    exact ⟨r.2, by rw [hr, ← h]⟩

/-- The event trace the healthy environment `envOK` produces. -/
def trOK : List Event :=
  [ Event.initModule "_chemical_series",
    Event.bindName "_chemical_series" (PyVal.module "_chemical_series"),
    Event.bindName "make_atomic_ring" (PyVal.obj 1),
    Event.bindName "make_atomic_lattice" (PyVal.obj 2),
    Event.bindName "make_atom" (PyVal.obj 3),
    Event.initModule "_hubbard",
    Event.bindName "_hubbard" (PyVal.module "_hubbard"),
    Event.bindName "fermi_hubbard" (PyVal.obj 4),
    Event.initModule "_jellium",
    Event.bindName "_jellium" (PyVal.module "_jellium"),
    Event.bindName "dual_basis_kinetic" (PyVal.obj 5),
    Event.bindName "dual_basis_potential" (PyVal.obj 6),
    Event.bindName "dual_basis_jellium_model" (PyVal.obj 7),
    Event.bindName "jellium_model" (PyVal.obj 8),
    Event.bindName "jordan_wigner_dual_basis_jellium" (PyVal.obj 9),
    Event.bindName "plane_wave_kinetic" (PyVal.obj 10),
    Event.bindName "plane_wave_potential" (PyVal.obj 11),
    Event.initModule "_mean_field_dwave",
    Event.bindName "_mean_field_dwave" (PyVal.module "_mean_field_dwave"),
    Event.bindName "mean_field_dwave" (PyVal.obj 12),
    Event.initModule "_molecular_data",
    Event.bindName "_molecular_data" (PyVal.module "_molecular_data"),
    Event.bindName "MolecularData" (PyVal.obj 13),
    Event.bindName "periodic_table" (PyVal.obj 14),
    Event.initModule "_plane_wave_hamiltonian",
    Event.bindName "_plane_wave_hamiltonian"
      (PyVal.module "_plane_wave_hamiltonian"),
    Event.bindName "dual_basis_external_potential" (PyVal.obj 15),
    Event.bindName "fourier_transform" (PyVal.obj 16),
    Event.bindName "inverse_fourier_transform" (PyVal.obj 17),
    Event.bindName "plane_wave_external_potential" (PyVal.obj 18),
    Event.bindName "plane_wave_hamiltonian" (PyVal.obj 19),
    Event.bindName "jordan_wigner_dual_basis_hamiltonian" (PyVal.obj 20),
    Event.bindName "wigner_seitz_length_scale" (PyVal.obj 21) ]

example : loadHamiltonians envOK = .ok nsOK := by rfl

example : loadTrace envOK = .ok trOK := by rfl

example : loadHamiltonians envBroken =
    .error (ImportErr.moduleBroken "_jellium") := by rfl

example : loadHamiltonians envExtra = .ok nsOK := by rfl

example : (boundNames hamiltoniansImports).Nodup := by decide

example : nsLookup nsOK "fermi_hubbard" = some (PyVal.obj 4) := by rfl

example : starImportNames nsOK = publicNames := by decide

/-- C1: after a successful load of `openfermion.hamiltonians`, every one of
the 21 names of section 6 resolves in the package namespace, and the value
bound to it is identically — same object identity, no copy, wrapper, or
transformation — the object that the originating submodule defines for that
name. -/
theorem listed_names_resolve_identically {env : Env}
    {ns : List (String × PyVal)} (h : loadHamiltonians env = .ok ns) :
    ∀ n ∈ publicNames, ∃ s ∈ hamiltoniansImports, n ∈ s.names ∧
      ∃ sub i, lookupStr s.module env = some sub ∧
        lookupStr n sub.defs = some i ∧
        nsLookup ns n = some (PyVal.obj i) := by
  obtain ⟨tr, hr⟩ := loadHamiltonians_ok h
  have hnd : (boundNames hamiltoniansImports).Nodup := by decide
  have hmain := runImports_lookup_symbol hnd hr
  have hrev : ∀ n, nsLookup ns n = lookupStr n ns := by
    intro n
    unfold nsLookup
    exact lookupStr_reverse (by rw [runImports_keys hr]; exact hnd) n
  have hcover : ∀ n ∈ publicNames,
      ∃ s ∈ hamiltoniansImports, n ∈ s.names := by decide
  intro n hn
  obtain ⟨s, hs, hns⟩ := hcover n hn
  obtain ⟨sub, i, h1, h2, h3⟩ := hmain s hs n hns
  exact ⟨s, hs, hns, sub, i, h1, h2, by rw [hrev]; exact h3⟩

/-- Witness for C1 at the concrete healthy environment, instantiated at the
listed name `fermi_hubbard`. -/
theorem listed_names_resolve_identically_witness :
    "fermi_hubbard" ∈ publicNames ∧
    (∃ s ∈ hamiltoniansImports, "fermi_hubbard" ∈ s.names ∧
      ∃ sub i, lookupStr s.module envOK = some sub ∧
        lookupStr "fermi_hubbard" sub.defs = some i ∧
        nsLookup nsOK "fermi_hubbard" = some (PyVal.obj i)) :=
  ⟨by decide,
   @listed_names_resolve_identically envOK nsOK (by rfl)
     "fermi_hubbard" (by decide)⟩

/-- C2 counterexample: loading the module also binds the submodule name
`_hubbard` in the package namespace — a side effect of
`from ._hubbard import fermi_hubbard` — and `_hubbard` is not among the 21
listed names, so the namespace receives a name beyond the list. -/
theorem submodule_name_bound_beyond_list :
    loadHamiltonians envOK = .ok nsOK ∧
    "_hubbard" ∈ nsOK.map Prod.fst ∧
    nsLookup nsOK "_hubbard" = some (PyVal.module "_hubbard") ∧
    "_hubbard" ∉ publicNames :=
  ⟨rfl, by decide, rfl, by decide⟩

/-- C2 (amended): every name loading the module binds in the package
namespace is either one of the 21 listed names or one of the six
underscore-named submodules (the attribute bindings the import machinery
makes); no further name is introduced. -/
theorem bound_names_listed_or_submodule {env : Env}
    {ns : List (String × PyVal)} (h : loadHamiltonians env = .ok ns) :
    ∀ n ∈ ns.map Prod.fst, n ∈ publicNames ∨ n ∈ submoduleNames := by
  obtain ⟨tr, hr⟩ := loadHamiltonians_ok h
  rw [runImports_keys hr]
  decide

/-- Witness for the amended C2 at the concrete healthy environment,
instantiated at the bound name `make_atom`. -/
theorem bound_names_listed_or_submodule_witness :
    "make_atom" ∈ nsOK.map Prod.fst ∧
    ("make_atom" ∈ publicNames ∨ "make_atom" ∈ submoduleNames) :=
  ⟨by decide,
   @bound_names_listed_or_submodule envOK nsOK (by rfl)
     "make_atom" (by decide)⟩

/-- C3 counterexample: in an environment whose `_hubbard` submodule exports
the additional symbol `extra_helper`, the load succeeds and yet
`extra_helper` is not bound in the package namespace — so it is not the
case that every symbol exported by a submodule is re-exported. -/
theorem submodule_extra_symbol_not_bound :
    lookupStr "_hubbard" envExtra = some hubbardExtra ∧
    lookupStr "extra_helper" hubbardExtra.defs = some 99 ∧
    loadHamiltonians envExtra = .ok nsOK ∧
    nsLookup nsOK "extra_helper" = none :=
  ⟨rfl, rfl, rfl, rfl⟩

/-- C3 (amended): for each symbol the aggregator names in its six import
statements, the aggregator binds it into the package namespace under the
same name, to the identical object of the originating submodule, with no
transformation, wrapping, or validation; submodule exports beyond the named
symbols are not re-exported. -/
theorem imported_symbols_bound_unchanged {env : Env}
    {ns : List (String × PyVal)} (h : loadHamiltonians env = .ok ns) :
    ∀ s ∈ hamiltoniansImports, ∀ n ∈ s.names,
      ∃ sub i, lookupStr s.module env = some sub ∧
        lookupStr n sub.defs = some i ∧
        nsLookup ns n = some (PyVal.obj i) := by
  obtain ⟨tr, hr⟩ := loadHamiltonians_ok h
  have hnd : (boundNames hamiltoniansImports).Nodup := by decide
  intro s hs n hn
  obtain ⟨sub, i, h1, h2, h3⟩ := runImports_lookup_symbol hnd hr s hs n hn
  refine ⟨sub, i, h1, h2, ?_⟩
  unfold nsLookup
  rw [lookupStr_reverse (by rw [runImports_keys hr]; exact hnd)]
  exact h3

/-- Witness for the amended C3 at the concrete healthy environment,
instantiated at the `_jellium` statement and the name
`plane_wave_kinetic`. -/
theorem imported_symbols_bound_unchanged_witness :
    ∃ sub i, lookupStr "_jellium" envOK = some sub ∧
      lookupStr "plane_wave_kinetic" sub.defs = some i ∧
      nsLookup nsOK "plane_wave_kinetic" = some (PyVal.obj i) :=
  @imported_symbols_bound_unchanged envOK nsOK (by rfl)
    ⟨"_jellium",
      ["dual_basis_kinetic", "dual_basis_potential",
       "dual_basis_jellium_model", "jellium_model",
       "jordan_wigner_dual_basis_jellium", "plane_wave_kinetic",
       "plane_wave_potential"]⟩
    (by decide) "plane_wave_kinetic" (by decide)

/-- C4: repeated imports are idempotent: once an import of the package has
succeeded, any number of further imports leave the interpreter state
unchanged and return the very same bound namespace — no re-construction of
objects, no accumulating side effects. -/
theorem repeated_import_idempotent {env : Env} {st st1 : SysState}
    {ns : List (String × PyVal)}
    (h : importPackage env st = (st1, .ok ns)) :
    ∀ k, importSteps env st1 k = st1 ∧
      importPackage env st1 = (st1, .ok ns) := by
  have hc : st1.cache = some ns := by
    unfold importPackage at h
    split at h
    · rename_i ns2 hns2
      rw [Prod.mk.injEq] at h
      obtain ⟨h1, h2⟩ := h
      injection h2 with h2
      rw [← h1, hns2, h2]
    · split at h
      · rename_i ns2 hl
        rw [Prod.mk.injEq] at h
        obtain ⟨h1, h2⟩ := h
        injection h2 with h2
        rw [← h1, h2]
      · rename_i e hl
        rw [Prod.mk.injEq] at h
        exact absurd h.2 (by simp)
  have hsame : importPackage env st1 = (st1, .ok ns) := by
    unfold importPackage
    rw [hc]
  intro k
  refine ⟨?_, hsame⟩
  induction k with
  | zero => rfl
  | succ k ihk =>
    simp only [importSteps, hsame]
    exact ihk

/-- Witness for C4: a first import at the healthy environment caches the
namespace; three further imports change nothing and return it unchanged. -/
theorem repeated_import_idempotent_witness :
    importSteps envOK ⟨some nsOK⟩ 3 = ⟨some nsOK⟩ ∧
    importPackage envOK ⟨some nsOK⟩ = (⟨some nsOK⟩, .ok nsOK) :=
  @repeated_import_idempotent envOK ⟨none⟩ ⟨some nsOK⟩ nsOK (by rfl) 3

/-- C5: this layer has no error handling of its own: whenever the
statements before some statement succeed and that statement's submodule
load fails, the package load fails with exactly that error value — the
failure is neither caught, wrapped, transformed, nor reported here. -/
theorem submodule_failure_propagates_unchanged {env : Env}
    {stmts1 stmts2 : List ImportStmt} {s : ImportStmt} {e : ImportErr}
    (hsplit : hamiltoniansImports = stmts1 ++ s :: stmts2)
    (hok : ∀ t ∈ stmts1, isOkB (importFrom env t) = true)
    (herr : importFrom env s = .error e) :
    loadHamiltonians env = .error e := by
  unfold loadHamiltonians
  rw [hsplit, runImports_error hok herr]

/-- Witness for C5: with a raising `_jellium` body and the two statements
before it succeeding, the load fails with exactly the `_jellium` error. -/
theorem submodule_failure_propagates_unchanged_witness :
    loadHamiltonians envBroken =
      .error (ImportErr.moduleBroken "_jellium") :=
  @submodule_failure_propagates_unchanged envBroken
    [⟨"_chemical_series",
       ["make_atomic_ring", "make_atomic_lattice", "make_atom"]⟩,
     ⟨"_hubbard", ["fermi_hubbard"]⟩]
    [⟨"_mean_field_dwave", ["mean_field_dwave"]⟩,
     ⟨"_molecular_data", ["MolecularData", "periodic_table"]⟩,
     ⟨"_plane_wave_hamiltonian",
       ["dual_basis_external_potential", "fourier_transform",
        "inverse_fourier_transform", "plane_wave_external_potential",
        "plane_wave_hamiltonian", "jordan_wigner_dual_basis_hamiltonian",
        "wigner_seitz_length_scale"]⟩]
    ⟨"_jellium",
      ["dual_basis_kinetic", "dual_basis_potential",
       "dual_basis_jellium_model", "jellium_model",
       "jordan_wigner_dual_basis_jellium", "plane_wave_kinetic",
       "plane_wave_potential"]⟩
    (ImportErr.moduleBroken "_jellium")
    (by rfl) (by decide) (by rfl)

/-- C6: during a successful load the six submodule imports execute
sequentially in the textual order of the file — the initialization events
occur in exactly that order — and every re-exported symbol is bound only
after its defining submodule has finished initializing. -/
theorem submodules_ready_before_symbols_bound {env : Env}
    {tr : List Event} (h : loadTrace env = .ok tr) :
    ((tr.map eventTag).filter (fun t => t.1)) =
      submoduleNames.map (fun m => (true, m)) ∧
    ∀ s ∈ hamiltoniansImports, ∀ n ∈ s.names,
      tagBefore (true, s.module) (false, n) (tr.map eventTag) = true := by
  obtain ⟨ns, hr⟩ := loadTrace_ok h
  rw [runImports_tags hr]
  decide

/-- Witness for C6 at the concrete healthy environment's trace. -/
theorem submodules_ready_before_symbols_bound_witness :
    ((trOK.map eventTag).filter (fun t => t.1)) =
      submoduleNames.map (fun m => (true, m)) ∧
    ∀ s ∈ hamiltoniansImports, ∀ n ∈ s.names,
      tagBefore (true, s.module) (false, n) (trOK.map eventTag) = true :=
  @submodules_ready_before_symbols_bound envOK trOK (by rfl)

/-- C7: loading the package changes no program state beyond namespace
population: all state other than the package's import bookkeeping is left
untouched, and the import bookkeeping either stays unchanged or changes
only by caching the namespace a successful load produced. -/
theorem load_changes_only_package_namespace {α : Type} (env : Env)
    (w : World α) :
    (importPackageW env w).1.rest = w.rest ∧
      ((importPackageW env w).1.sys = w.sys ∨
        ∃ ns, loadHamiltonians env = .ok ns ∧ w.sys.cache = none ∧
          (importPackageW env w).1.sys = ⟨some ns⟩) := by
  refine ⟨rfl, ?_⟩
  cases hc : w.sys.cache with
  | some ns => left; simp [importPackageW, importPackage, hc]
  | none =>
    cases hl : loadHamiltonians env with
    | ok ns =>
      right
      exact ⟨ns, rfl, rfl, by simp [importPackageW, importPackage, hc, hl]⟩
    | error e => left; simp [importPackageW, importPackage, hc, hl]

/-- C8: module load is atomic with respect to errors: when a submodule
load fails, importing the package yields that error and leaves no cache
entry behind, so no partially populated package namespace is exposed
to the importer. -/
theorem failed_load_exposes_no_namespace {env : Env} {e : ImportErr}
    (h : loadHamiltonians env = .error e) :
    importPackage env ⟨none⟩ = (⟨none⟩, .error e) := by
  simp [importPackage, h]

/-- Witness for C8 at the environment with a raising `_jellium` body. -/
theorem failed_load_exposes_no_namespace_witness :
    importPackage envBroken ⟨none⟩ =
      (⟨none⟩, .error (ImportErr.moduleBroken "_jellium")) :=
  @failed_load_exposes_no_namespace envBroken
    (ImportErr.moduleBroken "_jellium") (by rfl)

/-- C9: the aggregator is deterministic: two loads in environments that
agree on the six internal submodules produce identical results — the same
names bound to the same objects, and the same event trace. -/
theorem load_determined_by_submodules {env1 env2 : Env}
    (h : ∀ m ∈ submoduleNames, lookupStr m env1 = lookupStr m env2) :
    loadHamiltonians env1 = loadHamiltonians env2 ∧
      loadTrace env1 = loadTrace env2 := by
  have hmods : ∀ s ∈ hamiltoniansImports,
      s.module ∈ submoduleNames := by decide
  have hr : runImports env1 hamiltoniansImports =
      runImports env2 hamiltoniansImports :=
    runImports_congr (fun s hs => h s.module (hmods s hs))
  constructor
  · unfold loadHamiltonians
    rw [hr]
  · unfold loadTrace
    rw [hr]

/-- Witness for C9: the healthy environment and its extension by an
unrelated module load identically. -/
theorem load_determined_by_submodules_witness :
    loadHamiltonians envOK = loadHamiltonians envPlus ∧
      loadTrace envOK = loadTrace envPlus :=
  @load_determined_by_submodules envOK envPlus (by decide)

/-- C10: after a successful load the six underscore submodule names are
bound as package attributes to the corresponding module objects, and — the
module declaring no `__all__` — a wildcard import exposes exactly the
non-underscore bound names, which are precisely the 21 listed symbols. -/
theorem submodule_attributes_and_star_import {env : Env}
    {ns : List (String × PyVal)} (h : loadHamiltonians env = .ok ns) :
    (∀ m ∈ submoduleNames, nsLookup ns m = some (PyVal.module m)) ∧
      starImportNames ns = publicNames := by
  obtain ⟨tr, hr⟩ := loadHamiltonians_ok h
  have hnd : (boundNames hamiltoniansImports).Nodup := by decide
  constructor
  · have hcover : ∀ m ∈ submoduleNames,
        ∃ s ∈ hamiltoniansImports, s.module = m := by decide
    intro m hm
    obtain ⟨s, hs, rfl⟩ := hcover m hm
    have hmod := runImports_lookup_module hnd hr s hs
    unfold nsLookup
    rw [lookupStr_reverse (by rw [runImports_keys hr]; exact hnd)]
    exact hmod
  · unfold starImportNames
    rw [runImports_keys hr]
    decide

/-- Witness for C10 at the concrete healthy environment. -/
theorem submodule_attributes_and_star_import_witness :
    (∀ m ∈ submoduleNames, nsLookup nsOK m = some (PyVal.module m)) ∧
      starImportNames nsOK = publicNames :=
  @submodule_attributes_and_star_import envOK nsOK (by rfl)

end OpenFermion
